import Mathlib

/-!
Verification of the ECMA-335 physical-metadata decoder (crate `ecma335`).

The Rust sources are shallowly embedded: byte buffers are `List Nat`
(each entry one byte), `usize` values are `Nat` with explicit `% 2 ^ 64`
where the source performs unchecked (wrapping) arithmetic and explicit
saturation where the source uses `saturating_add` / `saturating_mul`,
and every fallible decode returns `Option` (the crate's `Option` /
`Result`).  Decoders take the buffer and a cursor and return
`some (value, newCursor)` on success, mirroring
`FromBytes::from_bytes(buf, &mut offset, ctx)`.
-/

namespace Ecma335

/-- Embeds `usize::MAX` for the 64-bit targets the crate is built for. -/
def usizeMax : Nat := 2 ^ 64 - 1

/-- Release-mode semantics of unchecked `usize` addition/multiplication:
the mathematical result wrapped to 64 bits. -/
def wrap64 (n : Nat) : Nat := n % 2 ^ 64

/-- Embeds `usize::saturating_add`. -/
def satAdd (a b : Nat) : Nat := min (a + b) usizeMax

/-- Embeds `usize::saturating_mul`. -/
def satMul (a b : Nat) : Nat := min (a * b) usizeMax

/-- Embeds `buf.get(beg..end)`: the sub-slice, `none` when the range is invalid
or out of bounds (`slice::get` with a `Range`). -/
def listSlice (buf : List Nat) (beg e : Nat) : Option (List Nat) :=
  if beg ≤ e ∧ e ≤ buf.length then some ((buf.take e).drop beg) else none

/-- Decode a `u8` (`impl FromBytes for u8` in src/bytes.rs, via the
`int!` macro: read one byte, advance the cursor by one). -/
def readU8 (buf : List Nat) (off : Nat) : Option (Nat × Nat) :=
  (buf.get? off).map (fun b0 => (b0, off + 1))

/-- Decode a little-endian `u16` (src/bytes.rs `int!(u16)`: read
`[u8; 2]` then `u16::from_le_bytes`). -/
def readU16le (buf : List Nat) (off : Nat) : Option (Nat × Nat) :=
  match buf.get? off, buf.get? (off + 1) with
  | some b0, some b1 => some (b0 + b1 * 256, off + 2)
  | _, _ => none

/-- Decode a little-endian `u32` (src/bytes.rs `int!(u32)`). -/
def readU32le (buf : List Nat) (off : Nat) : Option (Nat × Nat) :=
  match buf.get? off, buf.get? (off + 1), buf.get? (off + 2), buf.get? (off + 3) with
  | some b0, some b1, some b2, some b3 =>
      some (b0 + b1 * 256 + b2 * 65536 + b3 * 16777216, off + 4)
  | _, _, _, _ => none

/-- Decode a little-endian `u64` (src/bytes.rs `int!(u64)`). -/
def readU64le (buf : List Nat) (off : Nat) : Option (Nat × Nat) :=
  match readU32le buf off, readU32le buf (off + 4) with
  | some (lo, _), some (hi, _) => some (lo + hi * 4294967296, off + 8)
  | _, _ => none

/-- Decode a nul-terminated C string (src/bytes.rs, `NulTerminated`
context for `&CStr`): take the remaining slice at `off` (`none` if the
cursor is past the end), find the first nul, return the bytes before it
and advance over string and nul by `saturating_add`. -/
def nulTerminated (buf : List Nat) (off : Nat) : Option (List Nat × Nat) :=
  if off ≤ buf.length then
    match (buf.drop off).findIdx? (fun b => b = 0) with
    | some n => some ((buf.drop off).take n, satAdd off (n + 1))
    | none => none
  else none

/-- Decode a `u32`-length-prefixed C string (src/bytes.rs,
`LengthPrefixed` context for `&CStr`): read the length, read a
nul-terminated string, then set the cursor to the position right after
the length field plus the prefixed length (`beg.saturating_add(len)`). -/
def lengthPrefixed (buf : List Nat) (off : Nat) : Option (List Nat × Nat) :=
  (readU32le buf off).bind (fun p =>
    (nulTerminated buf p.2).map (fun q => (q.1, satAdd p.2 p.1)))

/-- Embeds `x & !3` on a 64-bit `usize` (for `x < 2 ^ 64` this clears the two
low bits, i.e. rounds down to a multiple of 4). -/
def alignDown4 (x : Nat) : Nat := x - x % 4

/-- Decode a C string padded to a 4-byte boundary (src/bytes.rs,
`FourByteBoundaryPadded` context for `&CStr`): read a nul-terminated
string, then advance over `(len.saturating_add(3) & !3) - len` padding
bytes where `len` counts the nul. -/
def fourByteBoundaryPadded (buf : List Nat) (off : Nat) : Option (List Nat × Nat) :=
  (nulTerminated buf off).map (fun p =>
    let len := p.1.length + 1
    let pad := alignDown4 (satAdd len 3) - len
    (p.1, satAdd p.2 pad))

/-- Decode a compressed unsigned integer (src/bytes.rs lines 159-192,
`impl FromBytes<CompressedLength> for usize`), exactly as the Rust
source parses, including its operator precedence: in the two-byte arm
the source line `val & 0x3f << 8 | b1` groups as
`(val & (0x3f << 8)) | b1`, and in the four-byte arm
`val & 0x1f << 24` groups as `val & (0x1f << 24)`. -/
def compressedLength (buf : List Nat) (off : Nat) : Option (Nat × Nat) :=
  match buf.get? off with
  | none => none
  | some b0 =>
    if b0 &&& 0x80 = 0 then
      some (b0, off + 1)
    else if b0 &&& 0x40 = 0 then
      match buf.get? (off + 1) with
      | some b1 => some ((b0 &&& (0x3f <<< 8)) ||| b1, off + 2)
      | none => none
    else if b0 &&& 0x20 = 0 then
      match buf.get? (off + 1), buf.get? (off + 2), buf.get? (off + 3) with
      | some b1, some b2, some b3 =>
          some ((b0 &&& (0x1f <<< 24)) ||| (b1 <<< 16) ||| (b2 <<< 8) ||| b3, off + 4)
      | _, _, _ => none
    else none

/-- Modelled from the spec: the compressed-length encoding as the spec
states it (spec §4.1), for comparison with `compressedLength` above:
one byte → low 7 bits; two bytes → `((b0 & 0x3F) << 8) | b1`; four
bytes → `((b0 & 0x1F) << 24) | (b1 << 16) | (b2 << 8) | b3`; top bits
`111` → fail. -/
def compressedLengthSpecModel (buf : List Nat) (off : Nat) : Option (Nat × Nat) :=
  match buf.get? off with
  | none => none
  | some b0 =>
    if b0 &&& 0x80 = 0 then
      some (b0 &&& 0x7f, off + 1)
    else if b0 &&& 0x40 = 0 then
      match buf.get? (off + 1) with
      | some b1 => some (((b0 &&& 0x3f) <<< 8) ||| b1, off + 2)
      | none => none
    else if b0 &&& 0x20 = 0 then
      match buf.get? (off + 1), buf.get? (off + 2), buf.get? (off + 3) with
      | some b1, some b2, some b3 =>
          some (((b0 &&& 0x1f) <<< 24) ||| (b1 <<< 16) ||| (b2 <<< 8) ||| b3, off + 4)
      | _, _, _ => none
    else none

/-- C1: the compressed-length decoder does NOT follow the stated
encoding.  The code evaluates the two-byte arm as
`(b0 & (0x3f << 8)) | b1` (Rust `<<` binds tighter than `&`), which for
a byte `b0` is just `b1`: on the claim's own test vector `[0x81, 0x02]`
the code yields value `2` where the stated encoding (and the claim)
require `0x0102`.  The one-byte, four-byte-example and failure vectors
of the claim do agree with the code. -/
theorem compressedLength_two_byte_arm_drops_high_bits :
    compressedLength [0x81, 0x02] 0 = some (2, 2)
      ∧ compressedLengthSpecModel [0x81, 0x02] 0 = some (0x0102, 2)
      ∧ (2 : Nat) ≠ 0x0102
      ∧ compressedLength [0x05] 0 = some (5, 1)
      ∧ compressedLength [0xC0, 0x00, 0x00, 0x01] 0 = some (1, 4)
      ∧ compressedLength [0xE0] 0 = none := by
  refine ⟨by decide, by decide, by decide, by decide, by decide, by decide⟩

/-- The metadata root header (src/metadata/headers.rs, `MetadataHeader`).
The version string is kept as its byte content without the nul. -/
structure MetadataHeader where
  signature : Nat
  major_version : Nat
  minor_version : Nat
  reserved : Nat
  version : List Nat
  flags : Nat
  streams : Nat
deriving DecidableEq

/-- Embeds `MetadataHeader::from_bytes` (src/metadata/headers.rs lines 74-87):
signature `u32`, major `u16`, minor `u16`, reserved `u32`,
length-prefixed version string, flags `u16`, stream count `u16`. -/
def metadataHeaderFromBytes (buf : List Nat) (off : Nat) : Option (MetadataHeader × Nat) :=
  (readU32le buf off).bind fun (signature, o1) =>
  (readU16le buf o1).bind fun (major, o2) =>
  (readU16le buf o2).bind fun (minor, o3) =>
  (readU32le buf o3).bind fun (reserved, o4) =>
  (lengthPrefixed buf o4).bind fun (version, o5) =>
  (readU16le buf o5).bind fun (flags, o6) =>
  (readU16le buf o6).map fun (streams, o7) =>
  ({ signature := signature, major_version := major, minor_version := minor,
     reserved := reserved, version := version, flags := flags, streams := streams }, o7)

/-- A stream-directory entry (src/metadata/headers.rs,
`MetadataStreamHeader`): offset, size, name bytes (without nul). -/
structure MetadataStreamHeader where
  offset : Nat
  size : Nat
  name : List Nat
deriving DecidableEq

/-- Embeds `MetadataStreamHeader::from_bytes`: offset `u32`, size `u32`,
4-byte-boundary-padded nul-terminated name. -/
def metadataStreamHeaderFromBytes (buf : List Nat) (off : Nat) :
    Option (MetadataStreamHeader × Nat) :=
  (readU32le buf off).bind fun (so, o1) =>
  (readU32le buf o1).bind fun (ss, o2) =>
  (fourByteBoundaryPadded buf o2).map fun (name, o3) =>
  ({ offset := so, size := ss, name := name }, o3)

/-- Embeds `MetadataStreamHeader::data` (src/metadata/headers.rs lines 100-108):
slice `metadata[offset .. offset.saturating_add(size)]`. -/
def metadataStreamHeaderData (h : MetadataStreamHeader) (metadata : List Nat) :
    Option (List Nat) :=
  listSlice metadata h.offset (satAdd h.offset h.size)

/-- The `#~` tables-stream header (src/metadata/headers.rs,
`MetadataTablesHeader`).  `heap_sizes` is the stored `HeapSizes` bit
value, `rows` the 64-slot row-count array. -/
structure MetadataTablesHeader where
  reserved_0 : Nat
  major_version : Nat
  minor_version : Nat
  heap_sizes : Nat
  reserved_1 : Nat
  valid : Nat
  sorted : Nat
  rows : List Nat
deriving DecidableEq

/-- Embeds `HeapSizes::from_bits_truncate` on a raw byte: only the three
defined bits (0x01 wide-strings, 0x02 wide-guid, 0x04 wide-blob)
survive. -/
def heapSizesFromBits (b : Nat) : Nat := b &&& 7

/-- Embeds `impl FromBytes for HeapSizes` (src/metadata/headers.rs lines
170-174): read one byte and truncate to the defined bits. -/
def heapSizesFromBytes (buf : List Nat) (off : Nat) : Option (Nat × Nat) :=
  (readU8 buf off).map fun (b, o1) => (heapSizesFromBits b, o1)

/-- Embeds `bitflags::contains` for a single-bit flag value. -/
def heapSizesContains (hs flag : Nat) : Bool := hs &&& flag = flag

/-- The row-count loop of `MetadataTablesHeader::from_bytes`: one `u32`
per set bit of `valid` in ascending table-id order, zero otherwise. -/
def readRowCounts (buf : List Nat) (valid : Nat) (start : Nat) : Option (List Nat × Nat) :=
  (List.range 64).foldl
    (fun st i => st.bind (fun p =>
      if valid &&& (1 <<< i) ≠ 0 then
        (readU32le buf p.2).map (fun q => (p.1 ++ [q.1], q.2))
      else some (p.1 ++ [0], p.2)))
    (some ([], start))

/-- Embeds `MetadataTablesHeader::from_bytes` (src/metadata/headers.rs lines
140-168). -/
def metadataTablesHeaderFromBytes (buf : List Nat) (off : Nat) :
    Option (MetadataTablesHeader × Nat) :=
  (readU32le buf off).bind fun (r0, o1) =>
  (readU8 buf o1).bind fun (major, o2) =>
  (readU8 buf o2).bind fun (minor, o3) =>
  (heapSizesFromBytes buf o3).bind fun (hs, o4) =>
  (readU8 buf o4).bind fun (r1, o5) =>
  (readU64le buf o5).bind fun (valid, o6) =>
  (readU64le buf o6).bind fun (sorted, o7) =>
  (readRowCounts buf valid o7).map fun (rows, o8) =>
  ({ reserved_0 := r0, major_version := major, minor_version := minor,
     heap_sizes := hs, reserved_1 := r1, valid := valid, sorted := sorted,
     rows := rows }, o8)

/-- Embeds `RowRead::table_len` for the table with numeric id `tid`:
`header.rows[tid]` (the row-count array entry). -/
def tableLen (h : MetadataTablesHeader) (tid : Nat) : Nat := h.rows.getD tid 0

/-- Embeds `StringId::byte_size` (src/metadata/streams/strings.rs lines
95-103): 4 when the wide-strings bit 0x01 is set, else 2. -/
def stringIdByteSize (hs : Nat) : Nat := if heapSizesContains hs 1 then 4 else 2

/-- Embeds `GuidId::byte_size` (src/metadata/streams/guids.rs lines 60-68). -/
def guidIdByteSize (hs : Nat) : Nat := if heapSizesContains hs 2 then 4 else 2

/-- Embeds `BlobId::byte_size` (src/metadata/streams/blobs.rs lines 62-70). -/
def blobIdByteSize (hs : Nat) : Nat := if heapSizesContains hs 4 then 4 else 2

/-- Embeds `StringId::from_bytes` (src/metadata/streams/strings.rs lines
84-93): a `u32` when `byte_size` is 4, a `u16` when 2 (the source's
remaining match arm is `unreachable!`). -/
def stringIdFromBytes (hs : Nat) (buf : List Nat) (off : Nat) : Option (Nat × Nat) :=
  if stringIdByteSize hs = 4 then readU32le buf off
  else if stringIdByteSize hs = 2 then readU16le buf off
  else none

/-- Embeds `GuidId::from_bytes` (src/metadata/streams/guids.rs lines 49-58). -/
def guidIdFromBytes (hs : Nat) (buf : List Nat) (off : Nat) : Option (Nat × Nat) :=
  if guidIdByteSize hs = 4 then readU32le buf off
  else if guidIdByteSize hs = 2 then readU16le buf off
  else none

/-- Embeds `BlobId::from_bytes` (src/metadata/streams/blobs.rs lines 51-60). -/
def blobIdFromBytes (hs : Nat) (buf : List Nat) (off : Nat) : Option (Nat × Nat) :=
  if blobIdByteSize hs = 4 then readU32le buf off
  else if blobIdByteSize hs = 2 then readU16le buf off
  else none

/-- Embeds `GuidsHeap::get` (src/metadata/streams/guids.rs lines 35-40): the
source computes `end = beg + 16` with UNCHECKED addition (modelled here
with the release-mode wrap `% 2 ^ 64`; with overflow checks enabled the
same expression panics), then slices `[beg, end)` and converts to a
16-byte array. -/
def guidsHeapGet (heap : List Nat) (id : Nat) : Option (List Nat) :=
  let beg := id
  let e := wrap64 (beg + 16)
  (listSlice heap beg e).bind (fun b => if b.length = 16 then some b else none)

/-- The byte sequence of the claim's Scenario B. -/
def scenarioRootBytes : List Nat :=
  [0x53, 0x42, 0x4A, 0x42, 0x01, 0x00, 0x01, 0x00, 0x00, 0x00, 0x00, 0x00,
   0x04, 0x00, 0x00, 0x00, 0x76, 0x31, 0x2E, 0x30, 0x00, 0x00, 0x00, 0x00,
   0x00, 0x01, 0x00]

/-- C8 counterexample: on the Scenario B bytes the decoder yields
signature `0x424A4253` (the byte sequence begins `53 42 4A 42`, whose
little-endian `u32` is not the claimed `0x424A5342`) and stream count
0, not 1: the length prefix 4 puts the cursor at byte 20 (right after
`"v1.0"`, before its nul), so flags are read from bytes 20-21 and the
stream count from bytes 22-23, which are all zero; the `01` at byte 25
is never reached. -/
theorem metadataHeader_scenarioB_not_as_claimed :
    (metadataHeaderFromBytes scenarioRootBytes 0).map
        (fun p => (p.1.signature, p.1.streams)) = some (0x424A4253, 0)
      ∧ (0x424A4253 : Nat) ≠ 0x424A5342
      ∧ (0 : Nat) ≠ 1 := by
  exact ⟨by decide, by decide, by decide⟩

/-- C8 (amended): the Scenario B bytes decode to signature
`0x424A4253`, major version 1, minor version 1, reserved 0, version
text `"v1.0"`, flags 0 and stream count 0, leaving the cursor at byte
24: the length prefix 4 advances the cursor by exactly 4 bytes (no
boundary padding is consumed by the length-prefixed mode), so the
stated stream-count byte at index 25 is never read. -/
theorem metadataHeader_scenarioB_decodes :
    metadataHeaderFromBytes scenarioRootBytes 0
      = some ({ signature := 0x424A4253, major_version := 1, minor_version := 1,
                reserved := 0, version := [0x76, 0x31, 0x2E, 0x30],
                flags := 0, streams := 0 }, 24) := by
  decide

/-- Embeds `contains` of a single power-of-two flag bit is exactly a bit
test. -/
theorem heapSizesContains_pow (hs i : Nat) :
    heapSizesContains hs (2 ^ i) = hs.testBit i := by
  have hpos : 0 < 2 ^ i := Nat.pos_pow_of_pos i (by norm_num)
  simp only [heapSizesContains, Nat.and_two_pow]
  cases h : hs.testBit i
  · simpa using Nat.ne_of_lt hpos
  · simp

/-- The string-id width looks only at bit 0 of the heap-size flags. -/
theorem stringIdByteSize_testBit (hs : Nat) :
    stringIdByteSize hs = if hs.testBit 0 then 4 else 2 := by
  rw [stringIdByteSize, show (1 : Nat) = 2 ^ 0 from rfl, heapSizesContains_pow]

/-- The guid-id width looks only at bit 1 of the heap-size flags. -/
theorem guidIdByteSize_testBit (hs : Nat) :
    guidIdByteSize hs = if hs.testBit 1 then 4 else 2 := by
  rw [guidIdByteSize, show (2 : Nat) = 2 ^ 1 from rfl, heapSizesContains_pow]

/-- The blob-id width looks only at bit 2 of the heap-size flags. -/
theorem blobIdByteSize_testBit (hs : Nat) :
    blobIdByteSize hs = if hs.testBit 2 then 4 else 2 := by
  rw [blobIdByteSize, show (4 : Nat) = 2 ^ 2 from rfl, heapSizesContains_pow]

/-- C10: decoding the `heap_sizes` byte succeeds whenever at least one
byte remains, the stored value is the raw byte truncated to the three
defined bits (`b & 7`), and each id width is decided by its own defined
bit alone — reserved or garbage bits can neither fail the decode nor
influence any id width. -/
theorem heapSizes_decode_total_and_truncating (buf : List Nat) (off : Nat)
    (hoff : off < buf.length) :
    (∃ b, buf.get? off = some b
        ∧ heapSizesFromBytes buf off = some (b &&& 7, off + 1))
      ∧ (∀ b : Nat,
          stringIdByteSize (heapSizesFromBits b) = (if b.testBit 0 then 4 else 2)
            ∧ guidIdByteSize (heapSizesFromBits b) = (if b.testBit 1 then 4 else 2)
            ∧ blobIdByteSize (heapSizesFromBits b) = (if b.testBit 2 then 4 else 2)) := by
  constructor
  · have hb : buf.get? off = some (buf.get ⟨off, hoff⟩) := List.get?_eq_get hoff
    refine ⟨buf.get ⟨off, hoff⟩, hb, ?_⟩
    unfold heapSizesFromBytes readU8
    rw [hb]
    rfl
  · intro b
    have h7 : ∀ k, k < 3 → (b &&& 7).testBit k = b.testBit k := by
      intro k hk
      rw [Nat.testBit_land]
      have h7k : Nat.testBit 7 k = true := by interval_cases k <;> decide
      rw [h7k, Bool.and_true]
    refine ⟨?_, ?_, ?_⟩
    · rw [heapSizesFromBits, stringIdByteSize_testBit, h7 0 (by norm_num)]
    · rw [heapSizesFromBits, guidIdByteSize_testBit, h7 1 (by norm_num)]
    · rw [heapSizesFromBits, blobIdByteSize_testBit, h7 2 (by norm_num)]

/-- C10 witness: a one-byte buffer holding `0xFF` decodes, and every
reserved bit is discarded from the width computations. -/
theorem heapSizes_decode_total_witness :
    (∃ b, [0xFF].get? 0 = some b
        ∧ heapSizesFromBytes [0xFF] 0 = some (b &&& 7, 1))
      ∧ (∀ b : Nat,
          stringIdByteSize (heapSizesFromBits b) = (if b.testBit 0 then 4 else 2)
            ∧ guidIdByteSize (heapSizesFromBits b) = (if b.testBit 1 then 4 else 2)
            ∧ blobIdByteSize (heapSizesFromBits b) = (if b.testBit 2 then 4 else 2)) :=
  heapSizes_decode_total_and_truncating [0xFF] 0 (by decide)

/-- C7: for every combination of the three heap-size bits, a string,
guid or blob id field is 2 bytes when its own heap's bit is clear and 4
bytes when set — each heap looking only at its own bit — and the decode
reads exactly a 2-byte (respectively 4-byte) little-endian value. -/
theorem heap_id_width_per_flag_bit (hs : Nat) :
    (stringIdByteSize hs = if hs.testBit 0 then 4 else 2)
      ∧ (guidIdByteSize hs = if hs.testBit 1 then 4 else 2)
      ∧ (blobIdByteSize hs = if hs.testBit 2 then 4 else 2)
      ∧ (∀ buf off, stringIdFromBytes hs buf off
            = if hs.testBit 0 then readU32le buf off else readU16le buf off)
      ∧ (∀ buf off, guidIdFromBytes hs buf off
            = if hs.testBit 1 then readU32le buf off else readU16le buf off)
      ∧ (∀ buf off, blobIdFromBytes hs buf off
            = if hs.testBit 2 then readU32le buf off else readU16le buf off) := by
  refine ⟨stringIdByteSize_testBit hs, guidIdByteSize_testBit hs,
    blobIdByteSize_testBit hs, fun buf off => ?_, fun buf off => ?_, fun buf off => ?_⟩
  · cases h : hs.testBit 0 <;>
      simp [stringIdFromBytes, stringIdByteSize_testBit, h]
  · cases h : hs.testBit 1 <;>
      simp [guidIdFromBytes, guidIdByteSize_testBit, h]
  · cases h : hs.testBit 2 <;>
      simp [blobIdFromBytes, blobIdByteSize_testBit, h]

/-- The `usize -> u32` cast (`as u32`) appearing in the coded-index
width computation; row counts come from `u32` so it is lossless there. -/
def u32cast (n : Nat) : Nat := n % 2 ^ 32

/-- Embeds `RowId::<R>::byte_size` (src/metadata/streams/tables/id.rs lines
272-280): 2 when the TARGET table's row count is below `1 << 16`, else
4.  `tid` is the target table's numeric id. -/
def rowIdByteSize (tid : Nat) (h : MetadataTablesHeader) : Nat :=
  if tableLen h tid < 1 <<< 16 then 2 else 4

/-- Embeds `RowId::<R>::from_bytes` (src/metadata/streams/tables/id.rs lines
262-270): a `u16` when `byte_size` is 2, a `u32` when 4 (the remaining
match arm is `unreachable!`); the raw value is the row ordinal, no tag
bits are involved. -/
def rowIdFromBytes (tid : Nat) (h : MetadataTablesHeader) (buf : List Nat) (off : Nat) :
    Option (Nat × Nat) :=
  if rowIdByteSize tid h = 2 then readU16le buf off
  else if rowIdByteSize tid h = 4 then readU32le buf off
  else none

/-- Embeds `RowId::next` (src/metadata/streams/tables/id.rs line 37):
`index.saturating_add(1)`. -/
def rowIdNext (i : Nat) : Nat := satAdd i 1

/-- Embeds `coded_id!` generated `byte_size` (src/metadata/streams/tables/id.rs
lines 117-130): 4 as soon as one candidate table's row count (cast
`as u32`) reaches `1u32 << (16 - bits)`, else 2.  `tagMap` is the
family's ordered tag-to-table-id mapping. -/
def codedIdByteSize (bits : Nat) (tagMap : List (Nat × Nat))
    (h : MetadataTablesHeader) : Nat :=
  if tagMap.any (fun e => 1 <<< (16 - bits) ≤ u32cast (tableLen h e.2)) then 4 else 2

/-- Embeds `coded_id!` generated `from_tag` (src/metadata/streams/tables/id.rs
lines 88-99): tag = the low `bits` bits, index = the remaining bits;
`none` for a tag with no variant. -/
def codedIdFromTag (bits : Nat) (tagMap : List (Nat × Nat)) (v : Nat) :
    Option (Nat × Nat) :=
  let tag := v &&& ((1 <<< bits) - 1)
  let index := v >>> bits
  (List.lookup tag tagMap).map (fun t => (t, index))

/-- Embeds `coded_id!` generated `from_bytes` (src/metadata/streams/tables/id.rs
lines 102-115): read a `u32` or `u16` per `byte_size`, then `from_tag`. -/
def codedIdFromBytes (bits : Nat) (tagMap : List (Nat × Nat))
    (h : MetadataTablesHeader) (buf : List Nat) (off : Nat) :
    Option ((Nat × Nat) × Nat) :=
  match (if codedIdByteSize bits tagMap h = 4 then readU32le buf off
         else if codedIdByteSize bits tagMap h = 2 then readU16le buf off
         else none) with
  | none => none
  | some (v, o1) => (codedIdFromTag bits tagMap v).map (fun r => (r, o1))

/-- Embeds `TypeDefOrRef` tag map (2 tag bits). -/
def typeDefOrRefMap : List (Nat × Nat) := [(0, 0x02), (1, 0x01), (2, 0x1b)]

/-- Embeds `HasConstant` tag map (2 tag bits). -/
def hasConstantMap : List (Nat × Nat) := [(0, 0x04), (1, 0x08), (2, 0x17)]

/-- Embeds `HasCustomAttribute` tag map (5 tag bits). -/
def hasCustomAttributeMap : List (Nat × Nat) :=
  [(0, 0x06), (1, 0x04), (2, 0x01), (3, 0x02), (4, 0x08), (5, 0x09), (6, 0x0a),
   (7, 0x00), (8, 0x0e), (9, 0x17), (10, 0x14), (11, 0x11), (12, 0x1a),
   (13, 0x1b), (14, 0x20), (15, 0x23), (16, 0x26), (17, 0x27), (18, 0x28),
   (19, 0x2a), (20, 0x2c), (21, 0x2b)]

/-- Embeds `HasFieldMarshal` tag map (1 tag bit). -/
def hasFieldMarshalMap : List (Nat × Nat) := [(0, 0x04), (1, 0x08)]

/-- Embeds `HasDeclSecurity` tag map (2 tag bits). -/
def hasDeclSecurityMap : List (Nat × Nat) := [(0, 0x02), (1, 0x06), (2, 0x20)]

/-- Embeds `MemberRefParent` tag map (3 tag bits). -/
def memberRefParentMap : List (Nat × Nat) :=
  [(0, 0x02), (1, 0x01), (2, 0x1a), (3, 0x06), (4, 0x1b)]

/-- Embeds `HasSemantics` tag map (1 tag bit). -/
def hasSemanticsMap : List (Nat × Nat) := [(0, 0x14), (1, 0x17)]

/-- Embeds `MethodDefOrRef` tag map (1 tag bit). -/
def methodDefOrRefMap : List (Nat × Nat) := [(0, 0x06), (1, 0x0a)]

/-- Embeds `MemberForwarded` tag map (1 tag bit). -/
def memberForwardedMap : List (Nat × Nat) := [(0, 0x04), (1, 0x06)]

/-- Embeds `Implementation` tag map (2 tag bits). -/
def implementationMap : List (Nat × Nat) := [(0, 0x26), (1, 0x23), (2, 0x27)]

/-- Embeds `CustomAttributeType` tag map (3 tag bits; only tags 2 and 3 are
mapped, src/metadata/streams/tables/id.rs lines 231-236). -/
def customAttributeTypeMap : List (Nat × Nat) := [(2, 0x06), (3, 0x0a)]

/-- Embeds `ResolutionScope` tag map (2 tag bits). -/
def resolutionScopeMap : List (Nat × Nat) :=
  [(0, 0x00), (1, 0x1a), (2, 0x23), (3, 0x01)]

/-- Embeds `TypeOrMethodDef` tag map (1 tag bit). -/
def typeOrMethodDefMap : List (Nat × Nat) := [(0, 0x02), (1, 0x06)]

/-- C2: for a coded-index family with tag width `bits`, the field is 2
bytes iff every candidate table's row count is below `2 ^ (16 - bits)`,
4 bytes iff some candidate reaches that threshold, and the decoded
value splits into the tag (low `bits` bits) and the row ordinal (the
remaining bits). -/
theorem codedId_width_and_extraction (bits : Nat) (tagMap : List (Nat × Nat))
    (h : MetadataTablesHeader)
    (hrows : ∀ e ∈ tagMap, tableLen h e.2 < 2 ^ 32) :
    (codedIdByteSize bits tagMap h = 2 ↔
        ∀ e ∈ tagMap, tableLen h e.2 < 2 ^ (16 - bits))
      ∧ (codedIdByteSize bits tagMap h = 4 ↔
        ∃ e ∈ tagMap, 2 ^ (16 - bits) ≤ tableLen h e.2)
      ∧ (∀ v, codedIdFromTag bits tagMap v
          = (List.lookup (v % 2 ^ bits) tagMap).map (fun t => (t, v / 2 ^ bits))) := by
  have hcast : ∀ e ∈ tagMap, u32cast (tableLen h e.2) = tableLen h e.2 := by
    intro e he
    exact Nat.mod_eq_of_lt (hrows e he)
  have hcond : (tagMap.any (fun e => 1 <<< (16 - bits) ≤ u32cast (tableLen h e.2)))
      = true ↔ ∃ e ∈ tagMap, 2 ^ (16 - bits) ≤ tableLen h e.2 := by
    rw [List.any_eq_true]
    constructor
    · rintro ⟨e, he, hle⟩
      refine ⟨e, he, ?_⟩
      have := of_decide_eq_true hle
      rwa [Nat.one_shiftLeft, hcast e he] at this
    · rintro ⟨e, he, hle⟩
      refine ⟨e, he, decide_eq_true ?_⟩
      rwa [Nat.one_shiftLeft, hcast e he]
  refine ⟨?_, ?_, ?_⟩
  · unfold codedIdByteSize
    constructor
    · intro h2
      by_contra hnot
      push_neg at hnot
      obtain ⟨e, he, hge⟩ := hnot
      rw [if_pos (hcond.mpr ⟨e, he, hge⟩)] at h2
      exact absurd h2 (by norm_num)
    · intro hall
      rw [if_neg]
      intro hany
      obtain ⟨e, he, hge⟩ := hcond.mp hany
      exact absurd (hall e he) (not_lt.mpr hge)
  · unfold codedIdByteSize
    constructor
    · intro h4
      by_cases hany : (tagMap.any
          (fun e => 1 <<< (16 - bits) ≤ u32cast (tableLen h e.2))) = true
      · exact hcond.mp hany
      · rw [if_neg hany] at h4
        exact absurd h4 (by norm_num)
    · intro hex
      rw [if_pos (hcond.mpr hex)]
  · intro v
    unfold codedIdFromTag
    rw [Nat.one_shiftLeft, Nat.and_pow_two_sub_one_eq_mod, Nat.shiftRight_eq_div_pow]

/-- C2 witness: the `TypeDefOrRef` family over a header whose candidate
row counts are 1, 70000 and 0 — the 70000-row TypeDef table pushes the
field to 4 bytes. -/
theorem codedId_width_and_extraction_witness :
    codedIdByteSize 2 typeDefOrRefMap
        { reserved_0 := 0, major_version := 2, minor_version := 0, heap_sizes := 0,
          reserved_1 := 1, valid := 4, sorted := 0,
          rows := [0, 1, 70000] ++ List.replicate 61 0 } = 4 :=
  (codedId_width_and_extraction 2 typeDefOrRefMap
      { reserved_0 := 0, major_version := 2, minor_version := 0, heap_sizes := 0,
        reserved_1 := 1, valid := 4, sorted := 0,
        rows := [0, 1, 70000] ++ List.replicate 61 0 }
      (by decide)).2.1.mpr ⟨(0, 0x02), by decide, by decide⟩

/-- The Scenario C tables header: TypeDef (table id 2) present with
70000 rows, every other table with a single row. -/
def scenarioCHeader : MetadataTablesHeader :=
  { reserved_0 := 0, major_version := 2, minor_version := 0, heap_sizes := 0,
    reserved_1 := 1, valid := 4, sorted := 0,
    rows := [1, 1, 70000] ++ List.replicate 61 1 }

/-- C5: a `RowId` field targeting table `tid` is 2 bytes iff that
table's row count is below 65536 and 4 bytes otherwise; its decode
reads the raw 2- or 4-byte little-endian ordinal with no embedded tag
(the value is passed to `RowId::new` unchanged); and in Scenario C a
70000-row TypeDef table forces every `RowId` targeting TypeDef to 4
bytes even though every other table has exactly one row. -/
theorem rowId_width_and_value (tid : Nat) (h : MetadataTablesHeader) :
    (rowIdByteSize tid h = 2 ↔ tableLen h tid < 65536)
      ∧ (rowIdByteSize tid h = 4 ↔ 65536 ≤ tableLen h tid)
      ∧ (∀ buf off, rowIdFromBytes tid h buf off
          = if tableLen h tid < 65536 then readU16le buf off else readU32le buf off)
      ∧ rowIdByteSize 2 scenarioCHeader = 4
      ∧ (∀ t2, t2 ≠ 2 → tableLen scenarioCHeader t2 ≤ 1) := by
  have hshift : (1 <<< 16 : Nat) = 65536 := by decide
  refine ⟨?_, ?_, ?_, by decide, ?_⟩
  · unfold rowIdByteSize
    rw [hshift]
    by_cases hlt : tableLen h tid < 65536
    · simp [hlt]
    · simp [hlt]
  · unfold rowIdByteSize
    rw [hshift]
    by_cases hlt : tableLen h tid < 65536
    · simp [hlt, Nat.not_le.mpr hlt]
    · simp [hlt, Nat.not_lt.mp hlt]
  · intro buf off
    unfold rowIdFromBytes rowIdByteSize
    rw [hshift]
    by_cases hlt : tableLen h tid < 65536
    · simp [hlt]
    · simp [hlt]
  · intro t2 hne
    by_cases hlt : t2 < 64
    · interval_cases t2 <;> first | exact absurd rfl hne | decide
    · have hnone : tableLen scenarioCHeader t2 = 0 := by
        unfold tableLen scenarioCHeader
        rw [List.getD_eq_get?, List.get?_eq_none.mpr (by simp; omega)]
        rfl
      omega

/-- C5 witness: the general width law applied to the Scenario C header
and target table TypeDef. -/
theorem rowId_width_and_value_witness :
    rowIdByteSize 2 scenarioCHeader = 4 ∧ 65536 ≤ tableLen scenarioCHeader 2 :=
  ⟨(rowId_width_and_value 2 scenarioCHeader).2.2.2.1,
    (rowId_width_and_value 2 scenarioCHeader).2.1.mp
      (rowId_width_and_value 2 scenarioCHeader).2.2.2.1⟩

/-- A tables header with heap-size flags 0 and no rows in any table. -/
def zeroTablesHeader : MetadataTablesHeader :=
  { reserved_0 := 0, major_version := 2, minor_version := 0, heap_sizes := 0,
    reserved_1 := 1, valid := 0, sorted := 0, rows := List.replicate 64 0 }

/-- C6 counterexample: decoding a `CustomAttributeType` coded index
whose wire value has unmapped tag 0 yields the very same bare `none` as
decoding from an empty buffer — the unmapped-tag failure is NOT
distinguishable from the absent-value outcome used for insufficient
bytes, because the decoder's only failure channel is `Option::None`. -/
theorem customAttributeType_unmapped_tag_same_as_absent :
    codedIdFromBytes 3 customAttributeTypeMap zeroTablesHeader [0, 0] 0 = none
      ∧ codedIdFromBytes 3 customAttributeTypeMap zeroTablesHeader [] 0 = none := by
  exact ⟨by decide, by decide⟩

/-- C6 (amended): a wire value whose low tag bits are not mapped to a
candidate table makes the whole coded-index decode fail, but the
failure is reported as the same bare `none` used for insufficient
bytes; no distinguishable hard-error value exists. -/
theorem codedId_unmapped_tag_is_bare_none (bits : Nat) (tagMap : List (Nat × Nat))
    (h : MetadataTablesHeader) (buf : List Nat) (off v o1 : Nat)
    (hread : (if codedIdByteSize bits tagMap h = 4 then readU32le buf off
              else if codedIdByteSize bits tagMap h = 2 then readU16le buf off
              else none) = some (v, o1))
    (hun : List.lookup (v &&& ((1 <<< bits) - 1)) tagMap = none) :
    codedIdFromBytes bits tagMap h buf off = none := by
  unfold codedIdFromBytes
  rw [hread]
  simp [codedIdFromTag, hun]

/-- C6 witness: wire value 1 (unmapped tag 1) in a 2-byte
`CustomAttributeType` field decodes to `none`. -/
theorem codedId_unmapped_tag_is_bare_none_witness :
    codedIdFromBytes 3 customAttributeTypeMap zeroTablesHeader [1, 0] 0 = none :=
  codedId_unmapped_tag_is_bare_none 3 customAttributeTypeMap zeroTablesHeader
    [1, 0] 0 1 2 (by decide) (by decide)

/-- The typed field kinds a `row!`-defined table row can contain
(src/metadata/streams/tables/rows.rs): fixed-width integers, heap ids,
row ids and coded indices. -/
inductive FieldTy where
  | u8 : FieldTy
  | u16 : FieldTy
  | u32 : FieldTy
  | strId : FieldTy
  | guidId : FieldTy
  | blobId : FieldTy
  | rowId (target : Nat) : FieldTy
  | coded (bits : Nat) (tagMap : List (Nat × Nat)) : FieldTy
deriving DecidableEq

/-- A decoded field value.  A coded index resolves to the candidate
table's numeric id plus the row ordinal. -/
inductive FieldVal where
  | int (v : Nat) : FieldVal
  | strId (v : Nat) : FieldVal
  | guidId (v : Nat) : FieldVal
  | blobId (v : Nat) : FieldVal
  | rowId (target v : Nat) : FieldVal
  | coded (table index : Nat) : FieldVal
deriving DecidableEq

/-- Per-field `ByteSize` dispatch as generated by the `row!` macro
(src/metadata/streams/tables/table.rs lines 200-211): integers are
fixed, heap ids consult the heap-size flags, row ids and coded indices
consult the tables header. -/
def fieldByteSize (h : MetadataTablesHeader) : FieldTy → Nat
  | .u8 => 1
  | .u16 => 2
  | .u32 => 4
  | .strId => stringIdByteSize h.heap_sizes
  | .guidId => guidIdByteSize h.heap_sizes
  | .blobId => blobIdByteSize h.heap_sizes
  | .rowId t => rowIdByteSize t h
  | .coded bits m => codedIdByteSize bits m h

/-- Per-field `FromBytes` dispatch as generated by the `row!` macro
(src/metadata/streams/tables/table.rs lines 218-232). -/
def fieldFromBytes (h : MetadataTablesHeader) (buf : List Nat) (off : Nat) :
    FieldTy → Option (FieldVal × Nat)
  | .u8 => (readU8 buf off).map (fun p => (.int p.1, p.2))
  | .u16 => (readU16le buf off).map (fun p => (.int p.1, p.2))
  | .u32 => (readU32le buf off).map (fun p => (.int p.1, p.2))
  | .strId => (stringIdFromBytes h.heap_sizes buf off).map (fun p => (.strId p.1, p.2))
  | .guidId => (guidIdFromBytes h.heap_sizes buf off).map (fun p => (.guidId p.1, p.2))
  | .blobId => (blobIdFromBytes h.heap_sizes buf off).map (fun p => (.blobId p.1, p.2))
  | .rowId t => (rowIdFromBytes t h buf off).map (fun p => (.rowId t p.1, p.2))
  | .coded bits m =>
      (codedIdFromBytes bits m h buf off).map (fun p => (.coded p.1.1 p.1.2, p.2))

/-- Embeds `RowRead::row_size` (src/metadata/streams/tables/table.rs lines
201-211): the saturating sum of the field widths, in field order. -/
def rowSize (s : List FieldTy) (h : MetadataTablesHeader) : Nat :=
  s.foldl (fun acc ty => satAdd acc (fieldByteSize h ty)) 0

/-- The field loop of the generated `RowRead::from_bytes`: decode each
field in order, threading the cursor; any failing field fails the whole
row. -/
def rowFieldsFromBytes (h : MetadataTablesHeader) (buf : List Nat) :
    List FieldTy → Nat → Option (List FieldVal × Nat)
  | [], off => some ([], off)
  | ty :: rest, off =>
    (fieldFromBytes h buf off ty).bind (fun p =>
      (rowFieldsFromBytes h buf rest p.2).map (fun q => (p.1 :: q.1, q.2)))

/-- A decoded row: the `RowId` it was requested under plus its decoded
field values in schema order. -/
structure RowVal where
  id : Nat
  fields : List FieldVal
deriving DecidableEq

/-- The generated `RowRead::from_bytes` (src/metadata/streams/tables/
table.rs lines 218-232): the requested id is stored, fields are read
sequentially. -/
def rowFromBytes (s : List FieldTy) (buf : List Nat) (off id : Nat)
    (h : MetadataTablesHeader) : Option RowVal :=
  (rowFieldsFromBytes h buf s off).map (fun p => ⟨id, p.1⟩)

/-- Embeds `TableReader::get` (src/metadata/streams/tables/table.rs lines
84-89): the row's byte offset is `id.index() * R::row_size(header)` —
an UNCHECKED multiplication (modelled with the release-mode wrap; with
overflow checks enabled the same expression panics) — and the row is
decoded there from the table's slice. -/
def tableReaderGet (s : List FieldTy) (bytes : List Nat) (h : MetadataTablesHeader)
    (idx : Nat) : Option RowVal :=
  rowFromBytes s bytes (wrap64 (idx * rowSize s h)) idx h

/-- Embeds `TableReaderIter::next` (src/metadata/streams/tables/table.rs lines
121-132) unrolled `fuel` times from row id `i`: each step decodes at
`id.index() * row_size` exactly as `get` does, stops at the first
failing row and advances the id by `RowId::next` (saturating `+ 1`).
The real iterator is unbounded; its yielded sequence equals this list
for every sufficiently large `fuel`. -/
def tableIter (s : List FieldTy) (bytes : List Nat) (h : MetadataTablesHeader) :
    Nat → Nat → List RowVal
  | 0, _ => []
  | fuel + 1, i =>
    match tableReaderGet s bytes h i with
    | none => []
    | some r => r :: tableIter s bytes h fuel (rowIdNext i)

/-- Embeds `TableBytes::from_bytes` (src/metadata/streams/tables/table.rs
lines 28-46): the table's byte region is
`bytes[offset .. offset + len.saturating_mul(row_size)]` — the final
addition `*offset + size` is UNCHECKED (modelled with the release-mode
wrap) — then the cursor advances past the region.  `none` models the
`Err(NotEnough)` return. -/
def tableBytesFromBytes (tid : Nat) (s : List FieldTy) (bytes : List Nat) (off : Nat)
    (h : MetadataTablesHeader) : Option (List Nat × Nat) :=
  let len := tableLen h tid
  let size := rowSize s h
  let total := satMul len size
  let e := wrap64 (off + total)
  (listSlice bytes off e).map (fun sl => (sl, e))

/-- Embeds `ModuleRefRow` schema (src/metadata/streams/tables/rows.rs, table
id 0x1a): a single `StringId` field. -/
def moduleRefSchema : List FieldTy := [.strId]

/-- Embeds `CustomAttributeRow` schema (src/metadata/streams/tables/rows.rs,
table id 0x0c): `HasCustomAttribute` parent, `CustomAttributeType`
attribute type, blob value. -/
def customAttributeSchema : List FieldTy :=
  [.coded 5 hasCustomAttributeMap, .coded 3 customAttributeTypeMap, .blobId]

/-- A tables header with a two-row ModuleRef table (id 0x1a = 26) and
narrow heaps. -/
def c3Header : MetadataTablesHeader :=
  { reserved_0 := 0, major_version := 2, minor_version := 0, heap_sizes := 0,
    reserved_1 := 1, valid := 1 <<< 26, sorted := 0,
    rows := List.replicate 26 0 ++ [2] ++ List.replicate 37 0 }

/-- C3: offset arithmetic in the cited functions does NOT saturate.
`TableReader::get` multiplies `id.index() * row_size` unchecked: on a
two-row ModuleRef table (row size 2) the ordinal `2 ^ 63 + 1` wraps to
byte offset 2 and `get` returns the PRESENT row stored at ordinal 1
instead of the absent outcome the claim requires for an
out-of-range ordinal.  Likewise `GuidsHeap::get` computes `id + 16`
unchecked, which wraps (`usize::MAX + 16` becomes 15) where saturating
arithmetic would give `usize::MAX`; with overflow checks enabled both
expressions panic instead. -/
theorem decode_offset_arithmetic_wraps :
    tableReaderGet moduleRefSchema [7, 0, 9, 0] c3Header (2 ^ 63 + 1)
        = some ⟨2 ^ 63 + 1, [FieldVal.strId 9]⟩
      ∧ tableLen c3Header 26 = 2
      ∧ 2 ≤ 2 ^ 63 + 1
      ∧ wrap64 (usizeMax + 16) = 15
      ∧ satAdd usizeMax 16 = usizeMax
      ∧ guidsHeapGet (List.replicate 20 7) usizeMax = none := by
  refine ⟨by decide, by decide, by decide, by decide, by decide, by decide⟩

/-- Embeds `readU16le` succeeds on an in-bounds offset with the little-endian
value of the two bytes. -/
theorem readU16le_in_bounds (buf : List Nat) (off : Nat) (hoff : off + 1 < buf.length) :
    readU16le buf off = some (buf.getD off 0 + buf.getD (off + 1) 0 * 256, off + 2) := by
  have h0 : buf.get? off = some (buf.get ⟨off, by omega⟩) := List.get?_eq_get (by omega)
  have h1 : buf.get? (off + 1) = some (buf.get ⟨off + 1, hoff⟩) := List.get?_eq_get hoff
  unfold readU16le
  rw [h0, h1]
  have g0 : buf.getD off 0 = buf.get ⟨off, by omega⟩ := by
    rw [List.getD_eq_get?, h0]
    rfl
  have g1 : buf.getD (off + 1) 0 = buf.get ⟨off + 1, hoff⟩ := by
    rw [List.getD_eq_get?, h1]
    rfl
  rw [g0, g1]

/-- Embeds `readU16le` fails when fewer than two bytes remain. -/
theorem readU16le_out_of_bounds (buf : List Nat) (off : Nat)
    (hoff : buf.length ≤ off + 1) :
    readU16le buf off = none := by
  have h1 : buf.get? (off + 1) = none := List.get?_eq_none.mpr hoff
  unfold readU16le
  rw [h1]
  cases buf.get? off <;> rfl

/-- Success bounds for `readU8`: it succeeds exactly when one byte
remains, consuming it. -/
theorem readU8_bounds (buf : List Nat) (off : Nat) :
    (off + 1 ≤ buf.length → ∃ v, readU8 buf off = some (v, off + 1))
      ∧ (buf.length < off + 1 → readU8 buf off = none) := by
  constructor
  · intro hle
    have h0 : buf.get? off = some (buf.get ⟨off, by omega⟩) := List.get?_eq_get (by omega)
    exact ⟨buf.get ⟨off, by omega⟩, by simp [readU8, h0]⟩
  · intro hgt
    have hn : buf.get? off = none := List.get?_eq_none.mpr (by omega)
    unfold readU8
    rw [hn]
    rfl

/-- Success bounds for `readU16le`: it succeeds exactly when two bytes
remain, consuming them. -/
theorem readU16le_bounds (buf : List Nat) (off : Nat) :
    (off + 2 ≤ buf.length → ∃ v, readU16le buf off = some (v, off + 2))
      ∧ (buf.length < off + 2 → readU16le buf off = none) := by
  constructor
  · intro hle
    exact ⟨_, readU16le_in_bounds buf off (by omega)⟩
  · intro hgt
    exact readU16le_out_of_bounds buf off (by omega)

/-- Success bounds for `readU32le`: it succeeds exactly when four bytes
remain, consuming them. -/
theorem readU32le_bounds (buf : List Nat) (off : Nat) :
    (off + 4 ≤ buf.length → ∃ v, readU32le buf off = some (v, off + 4))
      ∧ (buf.length < off + 4 → readU32le buf off = none) := by
  constructor
  · intro hle
    have h0 : buf.get? off = some (buf.get ⟨off, by omega⟩) := List.get?_eq_get (by omega)
    have h1 : buf.get? (off + 1) = some (buf.get ⟨off + 1, by omega⟩) :=
      List.get?_eq_get (by omega)
    have h2 : buf.get? (off + 2) = some (buf.get ⟨off + 2, by omega⟩) :=
      List.get?_eq_get (by omega)
    have h3 : buf.get? (off + 3) = some (buf.get ⟨off + 3, by omega⟩) :=
      List.get?_eq_get (by omega)
    exact ⟨buf.get ⟨off, by omega⟩ + buf.get ⟨off + 1, by omega⟩ * 256
        + buf.get ⟨off + 2, by omega⟩ * 65536 + buf.get ⟨off + 3, by omega⟩ * 16777216, by
      unfold readU32le
      rw [h0, h1, h2, h3]⟩
  · intro hgt
    have h3 : buf.get? (off + 3) = none := List.get?_eq_none.mpr (by omega)
    unfold readU32le
    rw [h3]
    cases buf.get? off <;> cases buf.get? (off + 1) <;> cases buf.get? (off + 2) <;> rfl

/-- A field decode is total when it can only fail from insufficient
bytes: integers, heap ids and row ids always are; a coded index is
total exactly when every tag value of its width is mapped (true of the
`ResolutionScope` and all one-bit families, false of e.g.
`CustomAttributeType` and `TypeDefOrRef`). -/
def fieldTotal : FieldTy → Bool
  | .coded bits m => (List.range (2 ^ bits)).all (fun t => (List.lookup t m).isSome)
  | _ => true

/-- Every field kind occupies at least one byte under every header. -/
theorem fieldByteSize_pos (h : MetadataTablesHeader) (ty : FieldTy) :
    0 < fieldByteSize h ty := by
  cases ty with
  | u8 => norm_num [fieldByteSize]
  | u16 => norm_num [fieldByteSize]
  | u32 => norm_num [fieldByteSize]
  | strId =>
      simp only [fieldByteSize, stringIdByteSize]
      split <;> norm_num
  | guidId =>
      simp only [fieldByteSize, guidIdByteSize]
      split <;> norm_num
  | blobId =>
      simp only [fieldByteSize, blobIdByteSize]
      split <;> norm_num
  | rowId t =>
      simp only [fieldByteSize, rowIdByteSize]
      split <;> norm_num
  | coded bits m =>
      simp only [fieldByteSize, codedIdByteSize]
      split <;> norm_num

/-- The string-id width is always 2 or 4. -/
theorem stringIdByteSize_cases (hs : Nat) :
    stringIdByteSize hs = 2 ∨ stringIdByteSize hs = 4 := by
  unfold stringIdByteSize
  split <;> simp

/-- The guid-id width is always 2 or 4. -/
theorem guidIdByteSize_cases (hs : Nat) :
    guidIdByteSize hs = 2 ∨ guidIdByteSize hs = 4 := by
  unfold guidIdByteSize
  split <;> simp

/-- The blob-id width is always 2 or 4. -/
theorem blobIdByteSize_cases (hs : Nat) :
    blobIdByteSize hs = 2 ∨ blobIdByteSize hs = 4 := by
  unfold blobIdByteSize
  split <;> simp

/-- The row-id width is always 2 or 4. -/
theorem rowIdByteSize_cases (t : Nat) (h : MetadataTablesHeader) :
    rowIdByteSize t h = 2 ∨ rowIdByteSize t h = 4 := by
  unfold rowIdByteSize
  split <;> simp

/-- The coded-index width is always 2 or 4. -/
theorem codedIdByteSize_cases (bits : Nat) (m : List (Nat × Nat))
    (h : MetadataTablesHeader) :
    codedIdByteSize bits m h = 2 ∨ codedIdByteSize bits m h = 4 := by
  unfold codedIdByteSize
  split <;> simp

/-- Success bounds for the string-id reader: it succeeds exactly when
its context-chosen width fits. -/
theorem stringIdFromBytes_bounds (hs : Nat) (buf : List Nat) (off : Nat) :
    (off + stringIdByteSize hs ≤ buf.length →
        ∃ v, stringIdFromBytes hs buf off = some (v, off + stringIdByteSize hs))
      ∧ (buf.length < off + stringIdByteSize hs →
        stringIdFromBytes hs buf off = none) := by
  rcases stringIdByteSize_cases hs with hsz | hsz
  · simp only [stringIdFromBytes, hsz]
    norm_num
    exact readU16le_bounds buf off
  · simp only [stringIdFromBytes, hsz]
    norm_num
    exact readU32le_bounds buf off

/-- Success bounds for the guid-id reader. -/
theorem guidIdFromBytes_bounds (hs : Nat) (buf : List Nat) (off : Nat) :
    (off + guidIdByteSize hs ≤ buf.length →
        ∃ v, guidIdFromBytes hs buf off = some (v, off + guidIdByteSize hs))
      ∧ (buf.length < off + guidIdByteSize hs →
        guidIdFromBytes hs buf off = none) := by
  rcases guidIdByteSize_cases hs with hsz | hsz
  · simp only [guidIdFromBytes, hsz]
    norm_num
    exact readU16le_bounds buf off
  · simp only [guidIdFromBytes, hsz]
    norm_num
    exact readU32le_bounds buf off

/-- Success bounds for the blob-id reader. -/
theorem blobIdFromBytes_bounds (hs : Nat) (buf : List Nat) (off : Nat) :
    (off + blobIdByteSize hs ≤ buf.length →
        ∃ v, blobIdFromBytes hs buf off = some (v, off + blobIdByteSize hs))
      ∧ (buf.length < off + blobIdByteSize hs →
        blobIdFromBytes hs buf off = none) := by
  rcases blobIdByteSize_cases hs with hsz | hsz
  · simp only [blobIdFromBytes, hsz]
    norm_num
    exact readU16le_bounds buf off
  · simp only [blobIdFromBytes, hsz]
    norm_num
    exact readU32le_bounds buf off

/-- Success bounds for the row-id reader. -/
theorem rowIdFromBytes_bounds (t : Nat) (h : MetadataTablesHeader)
    (buf : List Nat) (off : Nat) :
    (off + rowIdByteSize t h ≤ buf.length →
        ∃ v, rowIdFromBytes t h buf off = some (v, off + rowIdByteSize t h))
      ∧ (buf.length < off + rowIdByteSize t h →
        rowIdFromBytes t h buf off = none) := by
  rcases rowIdByteSize_cases t h with hsz | hsz
  · simp only [rowIdFromBytes, hsz]
    norm_num
    exact readU16le_bounds buf off
  · simp only [rowIdFromBytes, hsz]
    norm_num
    exact readU32le_bounds buf off

/-- Success bounds for a coded-index decode whose tag map is total: it
succeeds exactly when its context-chosen width fits. -/
theorem codedIdFromBytes_bounds (bits : Nat) (m : List (Nat × Nat))
    (h : MetadataTablesHeader) (buf : List Nat) (off : Nat)
    (htot : (List.range (2 ^ bits)).all (fun t => (List.lookup t m).isSome) = true) :
    (off + codedIdByteSize bits m h ≤ buf.length →
        ∃ r, codedIdFromBytes bits m h buf off = some (r, off + codedIdByteSize bits m h))
      ∧ (buf.length < off + codedIdByteSize bits m h →
        codedIdFromBytes bits m h buf off = none) := by
  have hlook : ∀ v : Nat, (List.lookup (v &&& ((1 <<< bits) - 1)) m).isSome = true := by
    intro v
    have htag : v &&& ((1 <<< bits) - 1) < 2 ^ bits := by
      rw [Nat.one_shiftLeft, Nat.and_pow_two_sub_one_eq_mod]
      exact Nat.mod_lt _ (Nat.pos_pow_of_pos _ (by norm_num))
    exact List.all_eq_true.mp htot _ (List.mem_range.mpr htag)
  rcases codedIdByteSize_cases bits m h with hsz | hsz
  · constructor
    · intro hle
      rw [hsz] at hle
      obtain ⟨v, hv⟩ := (readU16le_bounds buf off).1 hle
      obtain ⟨tbl, htbl⟩ := Option.isSome_iff_exists.mp (hlook v)
      refine ⟨(tbl, v >>> bits), ?_⟩
      rw [hsz]
      unfold codedIdFromBytes
      rw [hsz]
      norm_num
      rw [hv]
      simp [codedIdFromTag, htbl]
    · intro hgt
      rw [hsz] at hgt
      have hn := (readU16le_bounds buf off).2 hgt
      unfold codedIdFromBytes
      rw [hsz]
      norm_num
      rw [hn]
  · constructor
    · intro hle
      rw [hsz] at hle
      obtain ⟨v, hv⟩ := (readU32le_bounds buf off).1 hle
      obtain ⟨tbl, htbl⟩ := Option.isSome_iff_exists.mp (hlook v)
      refine ⟨(tbl, v >>> bits), ?_⟩
      rw [hsz]
      unfold codedIdFromBytes
      rw [hsz]
      norm_num
      rw [hv]
      simp [codedIdFromTag, htbl]
    · intro hgt
      rw [hsz] at hgt
      have hn := (readU32le_bounds buf off).2 hgt
      unfold codedIdFromBytes
      rw [hsz]
      norm_num
      rw [hn]

/-- Success bounds for a total field: it decodes exactly when its
context-chosen width fits, consuming that width. -/
theorem fieldFromBytes_total (h : MetadataTablesHeader) (tb : List Nat)
    (ty : FieldTy) (htot : fieldTotal ty = true) (off : Nat) :
    (off + fieldByteSize h ty ≤ tb.length →
        ∃ v, fieldFromBytes h tb off ty = some (v, off + fieldByteSize h ty))
      ∧ (tb.length < off + fieldByteSize h ty →
        fieldFromBytes h tb off ty = none) := by
  cases ty with
  | u8 =>
    refine ⟨fun hle => ?_, fun hgt => ?_⟩
    · obtain ⟨v, hv⟩ := (readU8_bounds tb off).1 hle
      exact ⟨.int v, by simp [fieldFromBytes, fieldByteSize, hv]⟩
    · simp [fieldFromBytes, fieldByteSize, (readU8_bounds tb off).2 hgt]
  | u16 =>
    refine ⟨fun hle => ?_, fun hgt => ?_⟩
    · obtain ⟨v, hv⟩ := (readU16le_bounds tb off).1 hle
      exact ⟨.int v, by simp [fieldFromBytes, fieldByteSize, hv]⟩
    · simp [fieldFromBytes, fieldByteSize, (readU16le_bounds tb off).2 hgt]
  | u32 =>
    refine ⟨fun hle => ?_, fun hgt => ?_⟩
    · obtain ⟨v, hv⟩ := (readU32le_bounds tb off).1 hle
      exact ⟨.int v, by simp [fieldFromBytes, fieldByteSize, hv]⟩
    · simp [fieldFromBytes, fieldByteSize, (readU32le_bounds tb off).2 hgt]
  | strId =>
    refine ⟨fun hle => ?_, fun hgt => ?_⟩
    · obtain ⟨v, hv⟩ := (stringIdFromBytes_bounds h.heap_sizes tb off).1 hle
      exact ⟨.strId v, by simp [fieldFromBytes, fieldByteSize, hv]⟩
    · simp [fieldFromBytes, fieldByteSize,
        (stringIdFromBytes_bounds h.heap_sizes tb off).2 hgt]
  | guidId =>
    refine ⟨fun hle => ?_, fun hgt => ?_⟩
    · obtain ⟨v, hv⟩ := (guidIdFromBytes_bounds h.heap_sizes tb off).1 hle
      exact ⟨.guidId v, by simp [fieldFromBytes, fieldByteSize, hv]⟩
    · simp [fieldFromBytes, fieldByteSize,
        (guidIdFromBytes_bounds h.heap_sizes tb off).2 hgt]
  | blobId =>
    refine ⟨fun hle => ?_, fun hgt => ?_⟩
    · obtain ⟨v, hv⟩ := (blobIdFromBytes_bounds h.heap_sizes tb off).1 hle
      exact ⟨.blobId v, by simp [fieldFromBytes, fieldByteSize, hv]⟩
    · simp [fieldFromBytes, fieldByteSize,
        (blobIdFromBytes_bounds h.heap_sizes tb off).2 hgt]
  | rowId t =>
    refine ⟨fun hle => ?_, fun hgt => ?_⟩
    · obtain ⟨v, hv⟩ := (rowIdFromBytes_bounds t h tb off).1 hle
      exact ⟨.rowId t v, by simp [fieldFromBytes, fieldByteSize, hv]⟩
    · simp [fieldFromBytes, fieldByteSize, (rowIdFromBytes_bounds t h tb off).2 hgt]
  | coded bits m =>
    have htot' : (List.range (2 ^ bits)).all (fun t => (List.lookup t m).isSome)
        = true := htot
    refine ⟨fun hle => ?_, fun hgt => ?_⟩
    · obtain ⟨r, hr⟩ := (codedIdFromBytes_bounds bits m h tb off htot').1 hle
      exact ⟨.coded r.1 r.2, by simp [fieldFromBytes, fieldByteSize, hr]⟩
    · simp [fieldFromBytes, fieldByteSize,
        (codedIdFromBytes_bounds bits m h tb off htot').2 hgt]

/-- Sequential decode of a schema of total fields succeeds exactly when
the whole row width fits, consuming it; with any field short of bytes
the whole row fails. -/
theorem rowFieldsFromBytes_bounds (h : MetadataTablesHeader) (tb : List Nat)
    (s : List FieldTy) (htot : ∀ ty ∈ s, fieldTotal ty = true) :
    ∀ off,
      (off + (s.map (fieldByteSize h)).sum ≤ tb.length →
          ∃ fs, rowFieldsFromBytes h tb s off
              = some (fs, off + (s.map (fieldByteSize h)).sum))
        ∧ (0 < (s.map (fieldByteSize h)).sum →
            tb.length < off + (s.map (fieldByteSize h)).sum →
            rowFieldsFromBytes h tb s off = none) := by
  induction s with
  | nil =>
    intro off
    constructor
    · intro _
      exact ⟨[], by simp [rowFieldsFromBytes]⟩
    · intro hpos _
      simp at hpos
  | cons ty rest ih =>
    intro off
    have hty := fieldFromBytes_total h tb ty (htot ty (by simp)) off
    have ihr := ih (fun t ht => htot t (List.mem_cons_of_mem _ ht))
    constructor
    · intro hle
      simp only [List.map_cons, List.sum_cons] at hle ⊢
      obtain ⟨v, hv⟩ := hty.1 (by omega)
      obtain ⟨fs, hfs⟩ := (ihr (off + fieldByteSize h ty)).1 (by omega)
      refine ⟨v :: fs, ?_⟩
      simp [rowFieldsFromBytes, hv, hfs, Nat.add_assoc]
    · intro hpos hgt
      simp only [List.map_cons, List.sum_cons] at hgt
      by_cases hf : off + fieldByteSize h ty ≤ tb.length
      · obtain ⟨v, hv⟩ := hty.1 hf
        have hrest := (ihr (off + fieldByteSize h ty)).2 (by omega) (by omega)
        simp [rowFieldsFromBytes, hv, hrest]
      · simp [rowFieldsFromBytes, hty.2 (by omega)]

/-- A tables header with a one-row CustomAttribute table (id 0x0c = 12)
and narrow heaps: every id and coded-index field is 2 bytes, so the
CustomAttribute row stride is 6. -/
def c4Header : MetadataTablesHeader :=
  { reserved_0 := 0, major_version := 2, minor_version := 0, heap_sizes := 0,
    reserved_1 := 1, valid := 1 <<< 12, sorted := 0,
    rows := List.replicate 12 0 ++ [1] ++ List.replicate 51 0 }

/-- C4 counterexample: on a one-row CustomAttribute table whose six
bytes are all zero, ordinal 0 is below the declared row count 1 and its
byte region `[0, 6)` lies entirely inside the 6-byte slice, yet
`get(0)` is absent — the row's `CustomAttributeType` field reads wire
value 0, whose tag 0 is unmapped.  So "absent exactly when the ordinal
≥ the declared row count" is false. -/
theorem customAttribute_get_absent_below_count :
    tableReaderGet customAttributeSchema [0, 0, 0, 0, 0, 0] c4Header 0 = none
      ∧ tableLen c4Header 12 = 1
      ∧ (0 : Nat) < 1
      ∧ rowSize customAttributeSchema c4Header = 6
      ∧ [0, 0, 0, 0, 0, 0].length = 1 * 6 := by
  refine ⟨by decide, by decide, by decide, by decide, by decide⟩

/-- Folding the saturating row-size accumulator equals the plain sum as
long as that sum stays within `usize`. -/
theorem rowSize_foldl (h : MetadataTablesHeader) :
    ∀ (s : List FieldTy) (acc : Nat),
      acc + (s.map (fieldByteSize h)).sum ≤ usizeMax →
      s.foldl (fun a ty => satAdd a (fieldByteSize h ty)) acc
        = acc + (s.map (fieldByteSize h)).sum := by
  intro s
  induction s with
  | nil =>
    intro acc _
    simp
  | cons ty rest ih =>
    intro acc hle
    simp only [List.map_cons, List.sum_cons] at hle
    have hsat : satAdd acc (fieldByteSize h ty) = acc + fieldByteSize h ty :=
      min_eq_left (by omega)
    simp only [List.foldl_cons, List.map_cons, List.sum_cons, hsat]
    rw [ih (acc + fieldByteSize h ty) (by omega)]
    omega

/-- The row stride is the plain sum of the field widths whenever that
sum stays within `usize` (always true of the real schemas). -/
theorem rowSize_eq_sum (s : List FieldTy) (h : MetadataTablesHeader)
    (hsum : (s.map (fieldByteSize h)).sum ≤ usizeMax) :
    rowSize s h = (s.map (fieldByteSize h)).sum := by
  unfold rowSize
  rw [rowSize_foldl h s 0 (by omega)]
  omega

/-- A successful slice has length `e - beg` and in-bounds endpoints. -/
theorem listSlice_some (buf sl : List Nat) (beg e : Nat)
    (hs : listSlice buf beg e = some sl) :
    sl.length = e - beg ∧ beg ≤ e ∧ e ≤ buf.length := by
  unfold listSlice at hs
  by_cases hc : beg ≤ e ∧ e ≤ buf.length
  · rw [if_pos hc] at hs
    obtain ⟨h1, h2⟩ := hc
    injection hs with hs
    subst hs
    refine ⟨?_, h1, h2⟩
    rw [List.length_drop, List.length_take]
    omega
  · rw [if_neg hc] at hs
    exact absurd hs (by simp)

/-- A successful `TableBytes::from_bytes` slices exactly
`row_count × row_size` bytes and advances the cursor past them (on
success the unchecked cursor addition cannot have wrapped). -/
theorem tableBytesFromBytes_some (tid : Nat) (s : List FieldTy) (bytes tb : List Nat)
    (off off' : Nat) (h : MetadataTablesHeader)
    (hmul : tableLen h tid * rowSize s h ≤ usizeMax)
    (hsl : tableBytesFromBytes tid s bytes off h = some (tb, off')) :
    tb.length = tableLen h tid * rowSize s h ∧ off' = off + tb.length := by
  have htotal : satMul (tableLen h tid) (rowSize s h) = tableLen h tid * rowSize s h :=
    min_eq_left hmul
  simp only [tableBytesFromBytes] at hsl
  rw [htotal] at hsl
  cases hls : listSlice bytes off (wrap64 (off + tableLen h tid * rowSize s h)) with
  | none =>
    rw [hls] at hsl
    exact absurd hsl (by simp)
  | some sl =>
    rw [hls] at hsl
    simp only [Option.map_some'] at hsl
    injection hsl with hsl
    rw [Prod.mk.injEq] at hsl
    obtain ⟨hsl1, hsl2⟩ := hsl
    obtain ⟨hlen2, hb, he⟩ := listSlice_some bytes sl off _ hls
    have hp : (2 : Nat) ^ 64 = 18446744073709551616 := by norm_num
    have hm : tableLen h tid * rowSize s h ≤ 18446744073709551615 := by
      have hx := hmul
      unfold usizeMax at hx
      rw [hp] at hx
      omega
    rw [← hsl1, ← hsl2]
    rw [wrap64, hp] at hlen2 hb he
    rw [wrap64, hp]
    constructor <;> omega

/-- Iterating with `fuel` steps from row id `j` yields exactly the rows
`j, j+1, …, len-1` once `get` is known to succeed below `len` and fail
at `len`. -/
theorem tableIter_filterMap (s : List FieldTy) (tb : List Nat)
    (h : MetadataTablesHeader) (len : Nat) (hlen : len < 2 ^ 64)
    (hsome : ∀ i, i < len → (tableReaderGet s tb h i).isSome = true)
    (hnone : tableReaderGet s tb h len = none) :
    ∀ fuel j, j ≤ len → len - j ≤ fuel →
      tableIter s tb h fuel j
        = (List.range' j (len - j)).filterMap (tableReaderGet s tb h) := by
  intro fuel
  induction fuel with
  | zero =>
    intro j hj hf
    have hz : len - j = 0 := by omega
    rw [hz]
    rfl
  | succ n ih =>
    intro j hj hf
    by_cases hjl : j < len
    · obtain ⟨r, hr⟩ := Option.isSome_iff_exists.mp (hsome j hjl)
      have hnext : rowIdNext j = j + 1 := by
        unfold rowIdNext satAdd usizeMax
        exact min_eq_left (by omega)
      have hstep : tableIter s tb h (n + 1) j
          = r :: tableIter s tb h n (rowIdNext j) := by
        simp only [tableIter, hr]
      have hrange : len - j = (len - (j + 1)) + 1 := by omega
      rw [hstep, hnext, ih (j + 1) (by omega) (by omega), hrange, List.range'_succ]
      simp [List.filterMap_cons, hr]
    · have hj' : j = len := by omega
      subst hj'
      simp only [tableIter, hnone]
      rw [Nat.sub_self]
      rfl

/-- C4 (amended): for EVERY table sliced from a tables header — any
schema `s` of fields that can only fail from insufficient bytes
(`fieldTotal`), any table id, any header, any buffer — a successful
`TableBytes::from_bytes` slice holds exactly
`row_count × row_size` bytes, and over that slice: `get(i)` — for
ordinals small enough that `i * row_size` cannot overflow (claim C3
covers the wrap) — is present exactly when `i` is below the declared
row count, equivalently exactly when the row's byte region lies inside
the slice; `get(i)` is the row decoded at byte offset `i × row_size`;
and iterating yields, for every sufficient fuel (hence for the
unbounded iterator), exactly the declared row count rows in ascending
ordinal order, the `k`-th being `get(k)`'s value.  For a schema with a
partial coded index (see the counterexample) absence can additionally
strike below the row count. -/
theorem table_get_and_iteration (tid : Nat) (s : List FieldTy)
    (bytes tb : List Nat) (off off' : Nat) (h : MetadataTablesHeader)
    (htot : ∀ ty ∈ s, fieldTotal ty = true)
    (hsum : (s.map (fieldByteSize h)).sum ≤ usizeMax)
    (hpos : 0 < rowSize s h)
    (hmul : tableLen h tid * rowSize s h ≤ usizeMax)
    (hslice : tableBytesFromBytes tid s bytes off h = some (tb, off')) :
    tb.length = tableLen h tid * rowSize s h
      ∧ (∀ i, i * rowSize s h < 2 ^ 64 →
          ((tableReaderGet s tb h i).isSome = true ↔ i < tableLen h tid))
      ∧ (∀ i, i * rowSize s h < 2 ^ 64 →
          tableReaderGet s tb h i = rowFromBytes s tb (i * rowSize s h) i h)
      ∧ (∀ fuel, tableLen h tid ≤ fuel →
          tableIter s tb h fuel 0
            = (List.range (tableLen h tid)).filterMap (tableReaderGet s tb h)) := by
  obtain ⟨hlen, hoff2⟩ := tableBytesFromBytes_some tid s bytes tb off off' h hmul hslice
  have hrs : rowSize s h = (s.map (fieldByteSize h)).sum := rowSize_eq_sum s h hsum
  have hum : usizeMax < 2 ^ 64 := by
    unfold usizeMax
    norm_num
  have hrfl : ∀ i, i * rowSize s h < 2 ^ 64 →
      tableReaderGet s tb h i = rowFromBytes s tb (i * rowSize s h) i h := by
    intro i hi
    unfold tableReaderGet
    rw [wrap64, Nat.mod_eq_of_lt hi]
  have hbounds := rowFieldsFromBytes_bounds h tb s htot
  have hget : ∀ i, i * rowSize s h < 2 ^ 64 →
      ((tableReaderGet s tb h i).isSome = true ↔ i < tableLen h tid) := by
    intro i hi
    rw [hrfl i hi]
    by_cases hil : i < tableLen h tid
    · have hin : i * rowSize s h + (s.map (fieldByteSize h)).sum ≤ tb.length := by
        rw [← hrs, hlen, ← Nat.succ_mul]
        exact Nat.mul_le_mul_right _ hil
      obtain ⟨fs, hfs⟩ := (hbounds (i * rowSize s h)).1 hin
      rw [rowFromBytes, hfs]
      simp [hil]
    · have hout : tb.length < i * rowSize s h + (s.map (fieldByteSize h)).sum := by
        rw [← hrs, hlen]
        have hge : tableLen h tid * rowSize s h ≤ i * rowSize s h :=
          Nat.mul_le_mul_right _ (by omega)
        omega
      have hnone := (hbounds (i * rowSize s h)).2 (by omega) hout
      rw [rowFromBytes, hnone]
      simp [hil]
  refine ⟨hlen, hget, hrfl, ?_⟩
  intro fuel hfuel
  have hiw : ∀ i, i ≤ tableLen h tid → i * rowSize s h < 2 ^ 64 := by
    intro i hile
    calc i * rowSize s h ≤ tableLen h tid * rowSize s h := Nat.mul_le_mul_right _ hile
    _ ≤ usizeMax := hmul
    _ < 2 ^ 64 := hum
  have hlenlt : tableLen h tid < 2 ^ 64 := by
    have h1 : tableLen h tid ≤ tableLen h tid * rowSize s h :=
      Nat.le_mul_of_pos_right _ hpos
    have h2 := hmul
    omega
  have hnone : tableReaderGet s tb h (tableLen h tid) = none := by
    cases hcase : tableReaderGet s tb h (tableLen h tid) with
    | none => rfl
    | some r =>
      have hcontra := (hget (tableLen h tid) (hiw _ le_rfl)).mp (by rw [hcase]; rfl)
      omega
  have := tableIter_filterMap s tb h (tableLen h tid) hlenlt
    (fun i hil => (hget i (hiw i (by omega))).mpr hil)
    hnone fuel 0 (by omega) (by omega)
  rw [this, Nat.sub_zero, List.range_eq_range']

/-- `MethodSemanticsRow` schema (src/metadata/streams/tables/rows.rs,
table id 0x18): flags, a `MethodDef` row id, and the total one-bit
`HasSemantics` coded index. -/
def methodSemanticsSchema : List FieldTy :=
  [.u16, .rowId 0x06, .coded 1 hasSemanticsMap]

/-- A tables header for the C4 witness: one MethodSemantics row
(id 0x18 = 24), three MethodDef rows (id 6), narrow heaps. -/
def c4WitnessHeader : MetadataTablesHeader :=
  { reserved_0 := 0, major_version := 2, minor_version := 0, heap_sizes := 0,
    reserved_1 := 1, valid := (1 <<< 24) ||| (1 <<< 6), sorted := 0,
    rows := List.replicate 6 0 ++ [3] ++ List.replicate 17 0 ++ [1]
      ++ List.replicate 39 0 }

/-- C4 witness: the general law applied to a one-row MethodSemantics
table (integer, row-id and coded-index fields) sliced from a 6-byte
buffer. -/
theorem table_get_and_iteration_witness :
    tableIter methodSemanticsSchema [7, 0, 1, 0, 2, 0] c4WitnessHeader 1 0
      = (List.range 1).filterMap
          (tableReaderGet methodSemanticsSchema [7, 0, 1, 0, 2, 0] c4WitnessHeader) :=
  (table_get_and_iteration 24 methodSemanticsSchema [7, 0, 1, 0, 2, 0]
      [7, 0, 1, 0, 2, 0] 0 6 c4WitnessHeader (by decide) (by decide) (by decide)
      (by decide) (by decide)).2.2.2 1 (by decide)

/-- Modelled from the spec: the per-table row schemas.  Field kinds and
order are from src/metadata/streams/tables/rows.rs (present under
src/), but the bit-flags field widths (`TypeAttributes`,
`FieldAttributes`, `ElementType`, …) are declared in
src/metadata/streams/tables/flags.rs, which is missing from src/; per
the spec those fields are plain integers decoded by the `bitflags!`
macro at the width of the underlying type, taken here from the
ECMA-335 flag definitions (u32 for type/assembly/file/resource flags
and hash algorithm, u16 for the other attribute flags, u8 for
`ElementType`).  Table ids without a schema are the unused ids. -/
def tableSchemas : Nat → Option (List FieldTy)
  | 0x00 => some [.u16, .strId, .guidId, .guidId, .guidId]
  | 0x01 => some [.coded 2 resolutionScopeMap, .strId, .strId]
  | 0x02 => some [.u32, .strId, .strId, .coded 2 typeDefOrRefMap, .rowId 0x04,
      .rowId 0x06]
  | 0x04 => some [.u16, .strId, .blobId]
  | 0x06 => some [.u32, .u16, .u16, .strId, .blobId, .rowId 0x08]
  | 0x08 => some [.u16, .u16, .strId]
  | 0x09 => some [.rowId 0x02, .coded 2 typeDefOrRefMap]
  | 0x0a => some [.coded 3 memberRefParentMap, .strId, .blobId]
  | 0x0b => some [.u8, .u8, .coded 2 hasConstantMap, .blobId]
  | 0x0c => some customAttributeSchema
  | 0x0d => some [.coded 1 hasFieldMarshalMap, .blobId]
  | 0x0e => some [.u16, .coded 2 hasDeclSecurityMap, .blobId]
  | 0x0f => some [.u16, .u32, .rowId 0x02]
  | 0x10 => some [.u32, .rowId 0x04]
  | 0x11 => some [.blobId]
  | 0x12 => some [.rowId 0x02, .rowId 0x14]
  | 0x14 => some [.u16, .strId, .coded 2 typeDefOrRefMap]
  | 0x15 => some [.rowId 0x02, .rowId 0x17]
  | 0x17 => some [.u16, .strId, .blobId]
  | 0x18 => some methodSemanticsSchema
  | 0x19 => some [.rowId 0x02, .coded 1 methodDefOrRefMap, .coded 1 methodDefOrRefMap]
  | 0x1a => some moduleRefSchema
  | 0x1b => some [.blobId]
  | 0x1c => some [.u16, .coded 1 memberForwardedMap, .strId, .rowId 0x1a]
  | 0x1d => some [.u32, .rowId 0x04]
  | 0x20 => some [.u32, .u16, .u16, .u16, .u16, .u32, .blobId, .strId, .strId]
  | 0x21 => some [.u32]
  | 0x22 => some [.u32, .u32, .u32]
  | 0x23 => some [.u16, .u16, .u16, .u16, .u32, .blobId, .strId, .strId, .blobId]
  | 0x24 => some [.u32, .rowId 0x23]
  | 0x25 => some [.u32, .u32, .u32, .rowId 0x23]
  | 0x26 => some [.u32, .strId, .blobId]
  | 0x27 => some [.u32, .rowId 0x02, .strId, .strId, .coded 2 implementationMap]
  | 0x28 => some [.u32, .u32, .strId, .coded 2 implementationMap]
  | 0x29 => some [.rowId 0x02, .rowId 0x02]
  | 0x2a => some [.u16, .u16, .coded 1 typeOrMethodDefMap, .strId]
  | 0x2b => some [.coded 1 methodDefOrRefMap, .blobId]
  | 0x2c => some [.rowId 0x2a, .coded 2 typeDefOrRefMap]
  | _ => none

/-- Embeds `MetadataStreamReadError` (src/metadata/errors.rs): a bare
not-enough-bytes failure, or a stream header whose region lies outside
the metadata (carrying the offending header). -/
inductive MetadataStreamReadErrorM where
  | notEnough : MetadataStreamReadErrorM
  | missingData (header : MetadataStreamHeader) : MetadataStreamReadErrorM
deriving DecidableEq

/-- The decoded `#~` stream (src/metadata/streams/tables.rs,
`TablesStream`): its header and the per-table byte regions sliced in
ascending table-id order. -/
structure TablesStreamModel where
  header : MetadataTablesHeader
  tables : List (Nat × List Nat)
deriving DecidableEq

/-- Embeds `TablesStream::from_bytes` (src/metadata/streams/tables.rs lines
78-224): decode the tables header, then slice every known table's byte
region in ascending numeric table-id order (ids without a schema are
skipped by the `_ => {}` arm); any slicing failure aborts with
`NotEnough`. -/
def tablesStreamFromBytes (bytes : List Nat) :
    Except MetadataStreamReadErrorM TablesStreamModel :=
  match metadataTablesHeaderFromBytes bytes 0 with
  | none => .error .notEnough
  | some (h, off0) =>
    match (List.range 64).foldl
        (fun st tid => st.bind (fun p =>
          match tableSchemas tid with
          | none => some p
          | some s => (tableBytesFromBytes tid s bytes p.2 h).map
              (fun q => (p.1 ++ [(tid, q.1)], q.2))))
        (some (([] : List (Nat × List Nat)), off0)) with
    | none => .error .notEnough
    | some p => .ok ⟨h, p.1⟩

/-- The name bytes of the `#~` stream. -/
def tildeName : List Nat := [0x23, 0x7e]

/-- The name bytes of the `#US` stream. -/
def usName : List Nat := [0x23, 0x55, 0x53]

/-- The name bytes of the `#Blob` stream. -/
def blobName : List Nat := [0x23, 0x42, 0x6c, 0x6f, 0x62]

/-- The name bytes of the `#GUID` stream. -/
def guidName : List Nat := [0x23, 0x47, 0x55, 0x49, 0x44]

/-- The name bytes of the `#Strings` stream. -/
def stringsName : List Nat := [0x23, 0x53, 0x74, 0x72, 0x69, 0x6e, 0x67, 0x73]

/-- Embeds `MetadataStream` (src/metadata/streams/mod.rs): the dispatched
stream kinds, with unknown names kept as an opaque (header, bytes)
pair. -/
inductive MetadataStreamM where
  | blobs (data : List Nat) : MetadataStreamM
  | guids (data : List Nat) : MetadataStreamM
  | tables (ts : TablesStreamModel) : MetadataStreamM
  | strings (data : List Nat) : MetadataStreamM
  | userStrings (data : List Nat) : MetadataStreamM
  | unrecognized (header : MetadataStreamHeader) (data : List Nat) : MetadataStreamM
deriving DecidableEq

/-- The mutable state of `MetadataStreamIter`: remaining entry count
and cursor into the metadata bytes. -/
structure StreamIterState where
  len : Nat
  offset : Nat
deriving DecidableEq

/-- Embeds `MetadataStreamIter::next` (src/metadata/streams/mod.rs lines
42-66): stop when no entries remain; decode the entry header (a failed
header read ends the iteration); an out-of-range data region yields a
recoverable `MissingData` item carrying the header; otherwise dispatch
on the name, keeping unknown names as opaque items.  The returned state
is the iterator after the step. -/
def streamIterNext (bytes : List Nat) (s : StreamIterState) :
    Option (Except MetadataStreamReadErrorM MetadataStreamM × StreamIterState) :=
  if s.len = 0 then none
  else
    (metadataStreamHeaderFromBytes bytes s.offset).map (fun p =>
      match metadataStreamHeaderData p.1 bytes with
      | none => (.error (.missingData p.1), ⟨s.len - 1, p.2⟩)
      | some data =>
        if p.1.name = tildeName then
          match tablesStreamFromBytes data with
          | .ok ts => (.ok (.tables ts), ⟨s.len - 1, p.2⟩)
          | .error e => (.error e, ⟨s.len - 1, p.2⟩)
        else if p.1.name = usName then (.ok (.userStrings data), ⟨s.len - 1, p.2⟩)
        else if p.1.name = blobName then (.ok (.blobs data), ⟨s.len - 1, p.2⟩)
        else if p.1.name = guidName then (.ok (.guids data), ⟨s.len - 1, p.2⟩)
        else if p.1.name = stringsName then (.ok (.strings data), ⟨s.len - 1, p.2⟩)
        else (.ok (.unrecognized p.1 data), ⟨s.len - 1, p.2⟩))

/-- C9: a directory entry whose `offset + size` region exceeds the
metadata buffer yields a recoverable per-entry `MissingData` item
carrying that entry's header, and the iterator state advances past the
entry (count decremented, cursor after the header), so enumeration of
subsequent entries proceeds; an in-range entry with the unrecognized
name `#Pdb` is returned as an opaque (header, bytes) item, with the
state advancing the same way — in particular the second statement
applies verbatim to the state returned by the first, so a faulty entry
never prevents decoding later ones. -/
theorem stream_iter_error_recovery_and_unknown_names (bytes : List Nat)
    (s : StreamIterState) (h : MetadataStreamHeader) (off1 : Nat)
    (hlen : s.len ≠ 0)
    (hheader : metadataStreamHeaderFromBytes bytes s.offset = some (h, off1)) :
    (metadataStreamHeaderData h bytes = none →
      streamIterNext bytes s
        = some (.error (.missingData h), ⟨s.len - 1, off1⟩))
      ∧ (∀ data, metadataStreamHeaderData h bytes = some data →
          h.name = [0x23, 0x50, 0x64, 0x62] →
          streamIterNext bytes s
            = some (.ok (.unrecognized h data), ⟨s.len - 1, off1⟩)) := by
  constructor
  · intro hdata
    unfold streamIterNext
    rw [if_neg hlen, hheader, Option.map_some']
    simp only [hdata]
  · intro data hdata hname
    unfold streamIterNext
    rw [if_neg hlen, hheader, Option.map_some']
    simp only [hdata, hname, tildeName, usName, blobName, guidName, stringsName]
    norm_num

/-- The metadata bytes of one directory entry named `#Pdb` with offset
0 and size 0. -/
def pdbDirBytes : List Nat :=
  [0, 0, 0, 0, 0, 0, 0, 0, 0x23, 0x50, 0x64, 0x62, 0, 0, 0, 0]

/-- C9 witness: a one-entry directory whose entry is named `#Pdb`
yields the opaque item and the advanced state. -/
theorem stream_iter_unknown_name_witness :
    streamIterNext pdbDirBytes ⟨1, 0⟩
      = some (.ok (.unrecognized
          { offset := 0, size := 0, name := [0x23, 0x50, 0x64, 0x62] } []), ⟨0, 16⟩) :=
  (stream_iter_error_recovery_and_unknown_names pdbDirBytes ⟨1, 0⟩
      { offset := 0, size := 0, name := [0x23, 0x50, 0x64, 0x62] } 16
      (by decide) (by decide)).2 [] (by decide) rfl

end Ecma335
